import Mathlib

/-!
Shallow embedding of the word-guessing game of `src/src/App.tsx`.

The React component keeps five pieces of state (`gameState`, `currentWordIndex`,
`guessedLetters`, `startTime`, `totalTime`); we collect them in a `GameState`
record, extended with a `confettiCount` field instrumenting the number of times
the celebratory `confetti()` call fires (the component performs it as a side
effect inside the win-check effect).

Timestamps (`Date.now()`) are modelled as integers in milliseconds; every
operation that reads the clock takes the current time `now : Int` as an
explicit argument.  The win-check `useEffect` runs after any state update that
changes its dependencies; an accepted guess is therefore modelled as the set
insertion followed by the win check.  A rejected or duplicate guess leaves the
`guessedLetters` reference unchanged, so the effect does not re-run: such a
guess is a complete no-op.

The random draw of `handleHint` (`Math.floor(Math.random() * n)`, uniform on
`[0, n)`) is modelled by an arbitrary natural number `r` reduced mod `n`: the
possible outcomes of the draw are exactly the values `r % n` for `r : Nat`.
-/

namespace TebakKata

structure WordData where
  word : String
  hint : String
  emoji : String

/-- JavaScript `toUpperCase()` on the relevant (ASCII) alphabet: uppercase
every character.  This is extensionally `String.toUpper`, but defined by
structural recursion over the character list so that it computes in the
kernel. -/
def strToUpper (s : String) : String :=
  String.mk (s.data.map Char.toUpper)

/-- The fixed word list of the source (`WORDS`). -/
def WORDS : List WordData := [
  { word := "LEBARAN", hint := "Hari raya umat Muslim setelah Ramadan", emoji := "🌙" },
  { word := "KETUPAT", hint := "Makanan khas dari beras dalam anyaman janur", emoji := "🍲" },
  { word := "MUDIK", hint := "Tradisi pulang ke kampung halaman", emoji := "🚗" },
  { word := "KAMPUNG", hint := "Tempat tinggal di masa kecil", emoji := "🏠" },
  { word := "RAMADHAN", hint := "Bulan suci umat Muslim untuk berpuasa", emoji := "🕌" },
  { word := "TAKBIR", hint := "Seruan yang dikumandangkan saat malam Lebaran", emoji := "🔊" },
  { word := "IMSAK", hint := "Tanda waktu berhenti makan saat sahur", emoji := "⏰" },
  { word := "SAHUR", hint := "Makan sebelum imsak saat puasa", emoji := "🌄" },
  { word := "BUKBER", hint := "Singkatan dari buka bersama", emoji := "🍽️" },
  { word := "THR", hint := "Uang yang dibagikan saat Lebaran", emoji := "💸" },
  { word := "OPOR", hint := "Hidangan ayam bersantan khas Lebaran", emoji := "🍗" },
  { word := "SILATURAHMI", hint := "Mengunjungi keluarga dan kerabat", emoji := "🤝" },
  { word := "TAKJIL", hint := "Makanan untuk berbuka puasa", emoji := "🥤" },
  { word := "ZAKAT", hint := "Kewajiban berbagi kepada yang membutuhkan", emoji := "🤲" }]

/-- The three rows of the virtual keyboard, each a list of one-letter strings
(the source splits the row strings with `split("")`). -/
def QWERTY_ROWS : List (List String) :=
  ["QWERTYUIOP".toList.map Char.toString,
   "ASDFGHJKL".toList.map Char.toString,
   "ZXCVBNM".toList.map Char.toString]

/-- Membership of a string in the virtual keyboard
(`QWERTY_ROWS.some(row => row.includes(upperLetter))`). -/
def isLetterStr (u : String) : Bool :=
  QWERTY_ROWS.any (fun row => row.contains u)

/-- The values of `gameState`: `'start' | 'playing' | 'won'`. -/
inductive Phase where
  | start
  | playing
  | won
deriving DecidableEq

/-- The component state, plus the `confettiCount` instrumentation counting the
celebratory `confetti()` invocations. -/
structure GameState where
  gameState : Phase
  currentWordIndex : Nat
  guessedLetters : Finset String
  startTime : Option Int
  totalTime : Int
  confettiCount : Nat
deriving DecidableEq

/-- The current word, `WORDS[currentWordIndex].word.toUpperCase()`.  The
source never indexes out of range; a default entry keeps the function
total. -/
def currentWord (s : GameState) : String :=
  strToUpper (WORDS.getD s.currentWordIndex ⟨"", "", ""⟩).word

/-- The characters of the current word as one-letter strings
(`currentWord.split('')`). -/
def wordChars (s : GameState) : List String :=
  (currentWord s).toList.map Char.toString

/-- The win test `currentWord.split('').every(char => guessedLetters.has(char))`. -/
def allGuessedB (w : String) (g : Finset String) : Bool :=
  w.toList.all (fun c => decide (c.toString ∈ g))

/-- JavaScript truthiness of the `startTime` value: `null` and `0` are falsy. -/
def startTruthy : Option Int → Bool
  | none => false
  | some t => decide (t ≠ 0)

/-- The win-check `useEffect` (source lines 89-108): while `playing`, if every
character of the current word is guessed, the phase becomes `won`; on the last
word with a truthy `startTime` the total time is stored as
`Math.floor((Date.now() - startTime) / 1000)` (floor division, `Int.fdiv`);
the `confetti()` side effect fires (counted by `confettiCount`). -/
def winCheck (s : GameState) (now : Int) : GameState :=
  if s.gameState = Phase.playing then
    if allGuessedB (currentWord s) s.guessedLetters then
      { s with gameState := Phase.won,
               totalTime :=
                 if (s.currentWordIndex == WORDS.length - 1) && startTruthy s.startTime
                 then Int.fdiv (now - s.startTime.getD 0) 1000
                 else s.totalTime,
               confettiCount := s.confettiCount + 1 }
    else s
  else s

/-- Guess submission, `handleGuess` (source lines 53-65): drops `undefined`/empty input and any
input outside the `playing` phase; uppercases, drops non-keyboard strings;
inserting an already-present letter returns the previous set reference, so no
effect re-runs; otherwise the letter is inserted and the win check runs. -/
def handleGuess (s : GameState) (letter : Option String) (now : Int) : GameState :=
  match letter with
  | none => s
  | some l =>
    if l = "" ∨ ¬ s.gameState = Phase.playing then s
    else
      if isLetterStr (strToUpper l) then
        if strToUpper l ∈ s.guessedLetters then s
        else winCheck { s with guessedLetters := insert (strToUpper l) s.guessedLetters } now
      else s

/-- The start operation, `handleStart` (source lines 45-51). -/
def handleStart (s : GameState) (now : Int) : GameState :=
  { s with gameState := Phase.playing,
           currentWordIndex := 0,
           guessedLetters := ∅,
           startTime := some now,
           totalTime := 0 }

/-- The list `unrevealed` computed by `handleHint` (source lines 79-81): the
occurrences of the current word whose character is not yet guessed. -/
def unrevealed (s : GameState) : List String :=
  (wordChars s).filter (fun u => !decide (u ∈ s.guessedLetters))

/-- The hint operation, `handleHint` (source lines 78-87): when some occurrence is unrevealed, pick
the occurrence at the random index (`Math.floor(Math.random() * n)`, modelled
by `r % n`) and route it through `handleGuess`. -/
def handleHint (s : GameState) (r : Nat) (now : Int) : GameState :=
  if h : 0 < (unrevealed s).length then
    handleGuess s
      (some ((unrevealed s).get ⟨r % (unrevealed s).length, Nat.mod_lt r h⟩)) now
  else s

/-- The letter selected by the hint draw `r` (for reasoning about the
distribution of `handleHint`). -/
def hintChoice (s : GameState) (r : Nat) : Option String :=
  (unrevealed s).get? (r % (unrevealed s).length)

/-- Number of draws `r ∈ [0, n)` (the equally likely outcomes of
`Math.floor(Math.random() * n)`) whose hint selection is the letter `u`. -/
def hintSelCount (s : GameState) (u : String) : Nat :=
  ((List.range (unrevealed s).length).map (hintChoice s)).count (some u)

/-- Modelled from the spec (used only to state C2 as written): the set of word
letters not yet in `guessed`. -/
def missingSetLetters (s : GameState) : List String :=
  (wordChars s).dedup.filter (fun u => !decide (u ∈ s.guessedLetters))

/-- Modelled from the spec (used only to state C2 as written): the hint draw is
uniform over the SET of missing word letters, i.e. every member of that set is
selected by equally many of the `n` equally likely draws. -/
def specHintUniformOverSet (s : GameState) : Prop :=
  ∀ u ∈ missingSetLetters s, ∀ v ∈ missingSetLetters s,
    hintSelCount s u = hintSelCount s v

/-- The next-word function, `nextWord` (source lines 110-118); the function
itself has no phase guard. -/
def nextWord (s : GameState) : GameState :=
  if s.currentWordIndex < WORDS.length - 1 then
    { s with currentWordIndex := s.currentWordIndex + 1,
             guessedLetters := ∅,
             gameState := Phase.playing }
  else
    { s with gameState := Phase.start }

/-- The advance operation as the UI exposes it: the winning card and its
buttons exist only while `gameState = won` (source line 209); the next-word
button invokes `nextWord` when not on the last word (lines 239-242), and the
restart button on the last word sets the phase to `start` (lines 243-247),
which coincides with the else branch of `nextWord`. -/
def advance (s : GameState) : GameState :=
  if s.gameState = Phase.won then
    if s.currentWordIndex < WORDS.length - 1 then nextWord s
    else { s with gameState := Phase.start }
  else s

/-- Folding a sequence of guesses (each submitted at time `now`). -/
def guessList (s : GameState) (ls : List String) (now : Int) : GameState :=
  ls.foldl (fun st u => handleGuess st (some u) now) s

/-- The distinct letters of the word at index `i`, uppercased, as one-letter
strings. -/
def lettersOfWord (i : Nat) : List String :=
  ((strToUpper (WORDS.getD i ⟨"", "", ""⟩).word).toList.map Char.toString).dedup

/-- Keyboard feedback (source lines 184-186): `isGuessed`. -/
def isGuessedKey (s : GameState) (u : String) : Bool :=
  decide (u ∈ s.guessedLetters)

/-- Keyboard feedback: `currentWord.includes(char)` for a one-letter key is
occurrence of that letter in the current word. -/
def wordIncludesB (s : GameState) (u : String) : Bool :=
  decide (u ∈ wordChars s)

/-- Keyboard feedback: `isCorrect = isGuessed && currentWord.includes(char)`. -/
def isCorrectKey (s : GameState) (u : String) : Bool :=
  isGuessedKey s u && wordIncludesB s u

/-- Keyboard feedback: `isIncorrect = isGuessed && !currentWord.includes(char)`. -/
def isIncorrectKey (s : GameState) (u : String) : Bool :=
  isGuessedKey s u && !(wordIncludesB s u)

theorem handleGuess_some (s : GameState) (l : String) (now : Int) :
    handleGuess s (some l) now =
      if l = "" ∨ ¬ s.gameState = Phase.playing then s
      else
        if isLetterStr (strToUpper l) then
          if strToUpper l ∈ s.guessedLetters then s
          else winCheck { s with guessedLetters := insert (strToUpper l) s.guessedLetters } now
        else s := rfl

theorem handleGuess_drop {s : GameState} {l : String} (now : Int)
    (h : l = "" ∨ ¬ s.gameState = Phase.playing) :
    handleGuess s (some l) now = s := by
  rw [handleGuess_some, if_pos h]

theorem handleGuess_notLetter {s : GameState} {l : String} (now : Int)
    (h : isLetterStr (strToUpper l) = false) :
    handleGuess s (some l) now = s := by
  rw [handleGuess_some]
  split
  · rfl
  · rw [h]
    simp

theorem handleGuess_already {s : GameState} {l : String} (now : Int)
    (hne : ¬ l = "") (hp : s.gameState = Phase.playing)
    (hmem : strToUpper l ∈ s.guessedLetters) :
    handleGuess s (some l) now = s := by
  rw [handleGuess_some, if_neg (by simp [hne, hp]), if_pos hmem]
  split <;> rfl

theorem handleGuess_accept {s : GameState} {l : String} (now : Int)
    (hne : ¬ l = "") (hp : s.gameState = Phase.playing)
    (hl : isLetterStr (strToUpper l) = true)
    (hmem : strToUpper l ∉ s.guessedLetters) :
    handleGuess s (some l) now =
      winCheck { s with guessedLetters := insert (strToUpper l) s.guessedLetters } now := by
  rw [handleGuess_some, if_neg (by simp [hne, hp]), hl, if_pos rfl, if_neg hmem]

theorem winCheck_not_playing {s : GameState} (now : Int)
    (h : ¬ s.gameState = Phase.playing) :
    winCheck s now = s := by
  rw [winCheck, if_neg h]

theorem winCheck_noWin {s : GameState} (now : Int)
    (h : allGuessedB (currentWord s) s.guessedLetters = false) :
    winCheck s now = s := by
  rw [winCheck, h]
  simp

theorem winCheck_win {s : GameState} (now : Int)
    (hp : s.gameState = Phase.playing)
    (h : allGuessedB (currentWord s) s.guessedLetters = true) :
    winCheck s now =
      { s with gameState := Phase.won,
               totalTime :=
                 if (s.currentWordIndex == WORDS.length - 1) && startTruthy s.startTime
                 then Int.fdiv (now - s.startTime.getD 0) 1000
                 else s.totalTime,
               confettiCount := s.confettiCount + 1 } := by
  rw [winCheck, if_pos hp, h, if_pos rfl]

theorem winCheck_guessedLetters (s : GameState) (now : Int) :
    (winCheck s now).guessedLetters = s.guessedLetters := by
  rw [winCheck]
  split
  · split <;> rfl
  · rfl

theorem winCheck_currentWordIndex (s : GameState) (now : Int) :
    (winCheck s now).currentWordIndex = s.currentWordIndex := by
  rw [winCheck]
  split
  · split <;> rfl
  · rfl

theorem winCheck_startTime (s : GameState) (now : Int) :
    (winCheck s now).startTime = s.startTime := by
  rw [winCheck]
  split
  · split <;> rfl
  · rfl

theorem isLetterStr_ne_empty {l : String} (h : isLetterStr (strToUpper l) = true) :
    ¬ l = "" := by
  intro he
  subst he
  exact absurd h (by decide)

theorem allGuessedB_true_iff (w : String) (g : Finset String) :
    allGuessedB w g = true ↔ ∀ c ∈ w.toList, c.toString ∈ g := by
  simp [allGuessedB, List.all_eq_true]

theorem allGuessedB_true_iff_chars (s : GameState) (g : Finset String) :
    allGuessedB (currentWord s) g = true ↔ ∀ u ∈ wordChars s, u ∈ g := by
  rw [allGuessedB_true_iff]
  constructor
  · intro h u hu
    obtain ⟨c, hc, rfl⟩ := List.mem_map.1 hu
    exact h c hc
  · intro h c hc
    exact h _ (List.mem_map_of_mem _ hc)

theorem words_letters_ok : ∀ i, i < WORDS.length →
    ∀ c ∈ (strToUpper (WORDS.getD i ⟨"", "", ""⟩).word).toList,
      isLetterStr c.toString = true ∧ strToUpper c.toString = c.toString := by decide

theorem words_nonempty_letters : ∀ i, i < WORDS.length → lettersOfWord i ≠ [] := by decide

/-- C3: `handleGuess` leaves the state entirely unchanged when the phase is not
`playing`, when the input is `none` or the empty string, or when the input is
not (after uppercasing) one of the 26 letters of the virtual keyboard; when it
passes these filters, it inserts exactly the uppercased letter into the guessed
set. -/
theorem guess_input_filtering (s : GameState) (now : Int) :
    (∀ l, ¬ s.gameState = Phase.playing → handleGuess s l now = s) ∧
    handleGuess s none now = s ∧
    handleGuess s (some ("")) now = s ∧
    (∀ str, isLetterStr (strToUpper str) = false → handleGuess s (some str) now = s) ∧
    (∀ str, s.gameState = Phase.playing → ¬ str = "" → isLetterStr (strToUpper str) = true →
      (handleGuess s (some str) now).guessedLetters = insert (strToUpper str) s.guessedLetters) := by
  refine ⟨?_, rfl, handleGuess_drop now (Or.inl rfl),
    fun str h => handleGuess_notLetter now h, ?_⟩
  · intro l h
    cases l with
    | none => rfl
    | some str => exact handleGuess_drop now (Or.inr h)
  · intro str hp hne hl
    by_cases hmem : strToUpper str ∈ s.guessedLetters
    · rw [handleGuess_already now hne hp hmem, Finset.insert_eq_self.mpr hmem]
    · rw [handleGuess_accept now hne hp hl hmem, winCheck_guessedLetters]

theorem guess_input_filtering_witness :
    handleGuess ⟨Phase.start, 0, ∅, none, 0, 0⟩ (some ("A")) 0 = ⟨Phase.start, 0, ∅, none, 0, 0⟩ ∧
    handleGuess ⟨Phase.playing, 0, ∅, some 1, 0, 0⟩ (some ("5")) 0
      = ⟨Phase.playing, 0, ∅, some 1, 0, 0⟩ ∧
    (handleGuess ⟨Phase.playing, 0, ∅, some 1, 0, 0⟩ (some ("a")) 0).guessedLetters
      = insert (strToUpper ("a")) (∅ : Finset String) :=
  ⟨(guess_input_filtering ⟨Phase.start, 0, ∅, none, 0, 0⟩ 0).1 (some ("A")) (by decide),
   (guess_input_filtering ⟨Phase.playing, 0, ∅, some 1, 0, 0⟩ 0).2.2.2.1 "5" (by decide),
   (guess_input_filtering ⟨Phase.playing, 0, ∅, some 1, 0, 0⟩ 0).2.2.2.2 "a" rfl
     (by decide) (by decide)⟩

/-- C4: guessing the same letter twice in a row yields exactly the state of
guessing it once; the second call is a no-op, in particular the celebratory
trigger count (`confettiCount`) is unchanged by it. -/
theorem guess_idem (s : GameState) (l : Option String) (now now' : Int) :
    handleGuess (handleGuess s l now) l now' = handleGuess s l now := by
  cases l with
  | none => rfl
  | some str =>
    by_cases h1 : str = "" ∨ ¬ s.gameState = Phase.playing
    · rw [handleGuess_drop now h1, handleGuess_drop now' h1]
    · push_neg at h1
      obtain ⟨hne, hp⟩ := h1
      by_cases h2 : isLetterStr (strToUpper str) = true
      · by_cases h3 : strToUpper str ∈ s.guessedLetters
        · rw [handleGuess_already now hne hp h3, handleGuess_already now' hne hp h3]
        · rw [handleGuess_accept now hne hp h2 h3]
          by_cases h4 :
              allGuessedB (currentWord { s with guessedLetters := insert (strToUpper str) s.guessedLetters })
                (insert (strToUpper str) s.guessedLetters) = true
          · rw [@winCheck_win { s with guessedLetters := insert (strToUpper str) s.guessedLetters }
                now hp h4]
            exact handleGuess_drop now' (Or.inr (by simp))
          · have h4f :
                allGuessedB (currentWord { s with guessedLetters := insert (strToUpper str) s.guessedLetters })
                  (insert (strToUpper str) s.guessedLetters) = false := by
              simpa using h4
            rw [@winCheck_noWin { s with guessedLetters := insert (strToUpper str) s.guessedLetters }
                now h4f]
            exact handleGuess_already now' hne hp (Finset.mem_insert_self _ _)
      · have h2f : isLetterStr (strToUpper str) = false := by simpa using h2
        rw [handleGuess_notLetter now h2f, handleGuess_notLetter now' h2f]

/-- C5: `handleStart` resets the whole game regardless of the state it is
called from: phase `playing`, word index `0`, empty guessed set, start
timestamp recorded as the current time, `totalTime` reset to `0`; it is
idempotent. -/
theorem start_resets (s : GameState) (now : Int) :
    (handleStart s now).gameState = Phase.playing ∧
    (handleStart s now).currentWordIndex = 0 ∧
    (handleStart s now).guessedLetters = ∅ ∧
    (handleStart s now).startTime = some now ∧
    (handleStart s now).totalTime = 0 ∧
    handleStart (handleStart s now) now = handleStart s now :=
  ⟨rfl, rfl, rfl, rfl, rfl, rfl⟩

/-- C9: the advance operation is available only from the `won` phase; invoked
in any other phase it leaves the game state unchanged. -/
theorem advance_only_from_won (s : GameState) (h : ¬ s.gameState = Phase.won) :
    advance s = s := by
  rw [advance, if_neg h]

theorem advance_only_from_won_witness :
    advance ⟨Phase.playing, 3, ∅, none, 0, 0⟩ = ⟨Phase.playing, 3, ∅, none, 0, 0⟩ :=
  advance_only_from_won ⟨Phase.playing, 3, ∅, none, 0, 0⟩ (by decide)

theorem handleGuess_currentWordIndex (s : GameState) (l : Option String) (now : Int) :
    (handleGuess s l now).currentWordIndex = s.currentWordIndex := by
  cases l with
  | none => rfl
  | some str =>
    rw [handleGuess_some]
    split
    · rfl
    · split
      · split
        · rfl
        · rw [winCheck_currentWordIndex]
      · rfl

theorem handleHint_currentWordIndex (s : GameState) (r : Nat) (now : Int) :
    (handleHint s r now).currentWordIndex = s.currentWordIndex := by
  rw [handleHint]
  split
  · exact handleGuess_currentWordIndex _ _ _
  · rfl

/-- C6: from `won`, the advance operation increments `currentWordIndex` by
exactly one, clears the guessed set and re-enters `playing` when below the last
index; at the last index it only returns to `start`.  No other operation
increments `currentWordIndex` (guess and hint preserve it, the start operation
sets it to `0`), and it is never incremented while already at the last
index. -/
theorem advance_next_word (s : GameState) :
    (s.gameState = Phase.won → s.currentWordIndex < WORDS.length - 1 →
      advance s = { s with currentWordIndex := s.currentWordIndex + 1,
                           guessedLetters := ∅, gameState := Phase.playing }) ∧
    (s.gameState = Phase.won → s.currentWordIndex = WORDS.length - 1 →
      advance s = { s with gameState := Phase.start }) ∧
    (∀ l now, (handleGuess s l now).currentWordIndex = s.currentWordIndex) ∧
    (∀ r now, (handleHint s r now).currentWordIndex = s.currentWordIndex) ∧
    (∀ now, (handleStart s now).currentWordIndex = 0) ∧
    (s.currentWordIndex = WORDS.length - 1 →
      (advance s).currentWordIndex = s.currentWordIndex) ∧
    (¬ s.gameState = Phase.won → (advance s).currentWordIndex = s.currentWordIndex) := by
  refine ⟨?_, ?_, handleGuess_currentWordIndex s, handleHint_currentWordIndex s,
    fun _ => rfl, ?_, ?_⟩
  · intro hw hlt
    rw [advance, if_pos hw, if_pos hlt, nextWord, if_pos hlt]
  · intro hw heq
    rw [advance, if_pos hw, if_neg (by omega)]
  · intro heq
    by_cases hw : s.gameState = Phase.won
    · rw [advance, if_pos hw, if_neg (by omega)]
    · rw [advance, if_neg hw]
  · intro hw
    rw [advance, if_neg hw]

theorem advance_next_word_witness :
    advance ⟨Phase.won, 0, {"L", "E", "B", "A", "R", "N"}, some 1, 0, 1⟩
      = ⟨Phase.playing, 1, ∅, some 1, 0, 1⟩ ∧
    advance ⟨Phase.won, 13, ∅, some 1, 0, 1⟩ = ⟨Phase.start, 13, ∅, some 1, 0, 1⟩ :=
  ⟨(advance_next_word ⟨Phase.won, 0, {"L", "E", "B", "A", "R", "N"}, some 1, 0, 1⟩).1
      rfl (by decide),
   (advance_next_word ⟨Phase.won, 13, ∅, some 1, 0, 1⟩).2.1 rfl (by decide)⟩

theorem winCheck_gameState_won {s : GameState} (now : Int)
    (hp : s.gameState = Phase.playing)
    (h : allGuessedB (currentWord s) s.guessedLetters = true) :
    (winCheck s now).gameState = Phase.won := by
  rw [winCheck_win now hp h]

theorem winCheck_totalTime_lastWord {s : GameState} (now t : Int)
    (hp : s.gameState = Phase.playing)
    (hall : allGuessedB (currentWord s) s.guessedLetters = true)
    (hidx : s.currentWordIndex = WORDS.length - 1)
    (hst : s.startTime = some t) (ht : ¬ t = 0) :
    (winCheck s now).totalTime = Int.fdiv (now - t) 1000 := by
  rw [winCheck_win now hp hall]
  show (if (s.currentWordIndex == WORDS.length - 1) && startTruthy s.startTime
        then Int.fdiv (now - s.startTime.getD 0) 1000 else s.totalTime)
      = Int.fdiv (now - t) 1000
  rw [hidx, hst]
  simp [startTruthy, ht]

theorem winCheck_totalTime_notLast {s : GameState} (now : Int)
    (h : ((s.currentWordIndex == WORDS.length - 1) && startTruthy s.startTime) = false) :
    (winCheck s now).totalTime = s.totalTime := by
  rw [winCheck]
  split
  · split
    · show (if (s.currentWordIndex == WORDS.length - 1) && startTruthy s.startTime
            then Int.fdiv (now - s.startTime.getD 0) 1000 else s.totalTime)
          = s.totalTime
      rw [h]
      simp
    · rfl
  · rfl

theorem handleGuess_shape (s : GameState) (l : Option String) (now : Int) :
    handleGuess s l now = s ∨
    ∃ u, l = some u ∧ ¬ u = "" ∧ s.gameState = Phase.playing ∧
      isLetterStr (strToUpper u) = true ∧ strToUpper u ∉ s.guessedLetters ∧
      handleGuess s l now =
        winCheck { s with guessedLetters := insert (strToUpper u) s.guessedLetters } now := by
  cases l with
  | none => exact Or.inl rfl
  | some str =>
    by_cases h1 : str = "" ∨ ¬ s.gameState = Phase.playing
    · exact Or.inl (handleGuess_drop now h1)
    · push_neg at h1
      obtain ⟨hne, hp⟩ := h1
      by_cases h2 : isLetterStr (strToUpper str) = true
      · by_cases h3 : strToUpper str ∈ s.guessedLetters
        · exact Or.inl (handleGuess_already now hne hp h3)
        · exact Or.inr ⟨str, rfl, hne, hp, h2, h3, handleGuess_accept now hne hp h2 h3⟩
      · exact Or.inl (handleGuess_notLetter now (by simpa using h2))

theorem advance_totalTime (s : GameState) : (advance s).totalTime = s.totalTime := by
  rw [advance]
  split
  · split
    · rw [nextWord]
      split <;> rfl
    · rfl
  · rfl

/-- C7: a guess assigns `totalTime` only at the transition from `playing` to
`won` on the last word; when that transition fires with the recorded start
timestamp `t` (a nonzero clock reading, as `Date.now()` returns), the stored
value is the floor of `(now - t) / 1000`; any guess that does not win the last
word leaves `totalTime` unchanged, and advancing never changes it. -/
theorem totalTime_last_word (s : GameState) (l : Option String) (now : Int) :
    (∀ t, s.gameState = Phase.playing → s.currentWordIndex = WORDS.length - 1 →
      s.startTime = some t → ¬ t = 0 →
      (handleGuess s l now).gameState = Phase.won →
      (handleGuess s l now).totalTime = Int.fdiv (now - t) 1000) ∧
    ((handleGuess s l now).totalTime ≠ s.totalTime →
      s.gameState = Phase.playing ∧ s.currentWordIndex = WORDS.length - 1 ∧
      (handleGuess s l now).gameState = Phase.won) ∧
    (advance s).totalTime = s.totalTime := by
  refine ⟨?_, ?_, advance_totalTime s⟩
  · intro t hp hidx hst ht hwon
    rcases handleGuess_shape s l now with hmain | ⟨u, hleq, hu1, _, hu3, hu4, hmain⟩
    · rw [hmain] at hwon
      exact absurd (hp.symm.trans hwon) (by decide)
    · by_cases hall :
        allGuessedB (currentWord { s with guessedLetters := insert (strToUpper u) s.guessedLetters })
          (insert (strToUpper u) s.guessedLetters) = true
      · rw [hmain]
        exact winCheck_totalTime_lastWord now t hp hall hidx hst ht
      · rw [hmain,
          @winCheck_noWin { s with guessedLetters := insert (strToUpper u) s.guessedLetters }
            now (by simpa using hall)] at hwon
        exact absurd (hp.symm.trans hwon) (by decide)
  · intro hne
    rcases handleGuess_shape s l now with hmain | ⟨u, hleq, hu1, hp, hu3, hu4, hmain⟩
    · rw [hmain] at hne
      exact absurd rfl hne
    · by_cases hall :
        allGuessedB (currentWord { s with guessedLetters := insert (strToUpper u) s.guessedLetters })
          (insert (strToUpper u) s.guessedLetters) = true
      · by_cases hcond :
          ((s.currentWordIndex == WORDS.length - 1) && startTruthy s.startTime) = true
        · rw [Bool.and_eq_true, beq_iff_eq] at hcond
          refine ⟨hp, hcond.1, ?_⟩
          rw [hmain]
          exact winCheck_gameState_won now hp hall
        · exfalso
          rw [hmain,
            @winCheck_totalTime_notLast
              { s with guessedLetters := insert (strToUpper u) s.guessedLetters }
              now (by simpa using hcond)] at hne
          exact hne rfl
      · rw [hmain,
          @winCheck_noWin { s with guessedLetters := insert (strToUpper u) s.guessedLetters }
            now (by simpa using hall)] at hne
        exact absurd rfl hne

theorem totalTime_last_word_witness :
    (handleGuess ⟨Phase.playing, 13, {"Z", "A", "K"}, some 1, 0, 0⟩ (some ("T")) 5001).totalTime
      = Int.fdiv (5001 - 1) 1000 ∧
    ((⟨Phase.playing, 13, {"Z", "A", "K"}, some 1, 0, 0⟩ : GameState).gameState = Phase.playing ∧
      (13 : Nat) = WORDS.length - 1 ∧
      (handleGuess ⟨Phase.playing, 13, {"Z", "A", "K"}, some 1, 0, 0⟩ (some ("T")) 5001).gameState
        = Phase.won) :=
  ⟨(totalTime_last_word ⟨Phase.playing, 13, {"Z", "A", "K"}, some 1, 0, 0⟩ (some ("T")) 5001).1
      1 rfl rfl rfl (by decide) (by decide),
   (totalTime_last_word ⟨Phase.playing, 13, {"Z", "A", "K"}, some 1, 0, 0⟩ (some ("T")) 5001).2.1
      (by decide)⟩

/-- C8: each keyboard key is in exactly one of the three display states,
derived purely from the guessed set and the current word: correct iff guessed
and occurring in the word, incorrect iff guessed and not occurring, unguessed
(interactive) iff not guessed; the derivation holds no state of its own. -/
theorem keyboard_key_states (s : GameState) (u : String) (hu : isLetterStr u = true) :
    (isCorrectKey s u = true ↔ (u ∈ s.guessedLetters ∧ u ∈ wordChars s)) ∧
    (isIncorrectKey s u = true ↔ (u ∈ s.guessedLetters ∧ u ∉ wordChars s)) ∧
    (isGuessedKey s u = false ↔ u ∉ s.guessedLetters) ∧
    ((isCorrectKey s u = true ∧ isIncorrectKey s u = false ∧ isGuessedKey s u = true) ∨
     (isIncorrectKey s u = true ∧ isCorrectKey s u = false ∧ isGuessedKey s u = true) ∨
     (isGuessedKey s u = false ∧ isCorrectKey s u = false ∧ isIncorrectKey s u = false)) ∧
    (∀ t : GameState, s.guessedLetters = t.guessedLetters → currentWord s = currentWord t →
      isCorrectKey s u = isCorrectKey t u ∧ isIncorrectKey s u = isIncorrectKey t u ∧
      isGuessedKey s u = isGuessedKey t u) := by
  refine ⟨?_, ?_, ?_, ?_, ?_⟩
  · simp [isCorrectKey, isGuessedKey, wordIncludesB, Bool.and_eq_true]
  · simp [isIncorrectKey, isGuessedKey, wordIncludesB, Bool.and_eq_true]
  · simp [isGuessedKey]
  · by_cases hg : u ∈ s.guessedLetters <;> by_cases hw : u ∈ wordChars s <;>
      simp [isCorrectKey, isIncorrectKey, isGuessedKey, wordIncludesB, hg, hw]
  · intro t h1 h2
    have hwc : wordChars s = wordChars t := by rw [wordChars, wordChars, h2]
    simp [isCorrectKey, isIncorrectKey, isGuessedKey, wordIncludesB, h1, hwc]

theorem keyboard_key_states_witness :
    isIncorrectKey ⟨Phase.playing, 1, {"Z", "T"}, some 1, 0, 0⟩ "Z" = true ∧
    isCorrectKey ⟨Phase.playing, 1, {"Z", "T"}, some 1, 0, 0⟩ "T" = true :=
  ⟨((keyboard_key_states ⟨Phase.playing, 1, {"Z", "T"}, some 1, 0, 0⟩ "Z" (by decide)).2.1).mpr
      ⟨by decide, by decide⟩,
   ((keyboard_key_states ⟨Phase.playing, 1, {"Z", "T"}, some 1, 0, 0⟩ "T" (by decide)).1).mpr
      ⟨by decide, by decide⟩⟩

/-- C10: advancing from `won` on the last word changes only the phase (to
`start`): the word index, the guessed set — which therefore keeps every letter
of the final word — and both timers are untouched. -/
theorem advance_last_frame (s : GameState) (hw : s.gameState = Phase.won)
    (hl : s.currentWordIndex = WORDS.length - 1) :
    advance s = { s with gameState := Phase.start } ∧
    (allGuessedB (currentWord s) s.guessedLetters = true →
      allGuessedB (currentWord (advance s)) (advance s).guessedLetters = true) := by
  have hadv : advance s = { s with gameState := Phase.start } := by
    rw [advance, if_pos hw, if_neg (by omega)]
  refine ⟨hadv, ?_⟩
  intro h
  rw [hadv]
  exact h

theorem wordChars_letters {s : GameState} (hix : s.currentWordIndex < WORDS.length) :
    ∀ u ∈ wordChars s, isLetterStr (strToUpper u) = true ∧ strToUpper u = u := by
  intro u hu
  obtain ⟨c, hc, rfl⟩ := List.mem_map.1 hu
  obtain ⟨h1, h2⟩ := words_letters_ok s.currentWordIndex hix c hc
  exact ⟨by rw [h2]; exact h1, h2⟩

theorem guessList_perm_aux (now : Int) :
    ∀ (perm : List String) (s : GameState),
      s.gameState = Phase.playing →
      s.currentWordIndex < WORDS.length →
      perm.Nodup →
      ¬ perm = [] →
      (∀ u, u ∈ perm ↔ (u ∈ wordChars s ∧ u ∉ s.guessedLetters)) →
      (∀ k, k < perm.length → (guessList s (perm.take k) now).gameState = Phase.playing) ∧
      (guessList s perm now).gameState = Phase.won := by
  intro perm
  induction perm with
  | nil => exact fun s _ _ _ hne _ => absurd rfl hne
  | cons u rest ih =>
    intro s hp hix hnd hne hiff
    have hu : u ∈ wordChars s ∧ u ∉ s.guessedLetters := (hiff u).1 (List.mem_cons_self u rest)
    obtain ⟨hul, huu⟩ := wordChars_letters hix u hu.1
    have hune : ¬ u = "" := isLetterStr_ne_empty hul
    have hstep : handleGuess s (some u) now =
        winCheck { s with guessedLetters := insert u s.guessedLetters } now := by
      rw [handleGuess_accept now hune hp hul (by rw [huu]; exact hu.2), huu]
    cases rest with
    | nil =>
      have hall :
          allGuessedB (currentWord { s with guessedLetters := insert u s.guessedLetters })
            (insert u s.guessedLetters) = true := by
        refine (allGuessedB_true_iff_chars s (insert u s.guessedLetters)).mpr ?_
        intro v hv
        by_cases hvg : v ∈ s.guessedLetters
        · exact Finset.mem_insert_of_mem hvg
        · have hvu := (hiff v).2 ⟨hv, hvg⟩
          rw [List.mem_singleton] at hvu
          rw [hvu]
          exact Finset.mem_insert_self u _
      constructor
      · intro k hk
        have hk0 : k = 0 := by
          simp only [List.length_cons, List.length_nil] at hk
          omega
        subst hk0
        exact hp
      · show (handleGuess s (some u) now).gameState = Phase.won
        rw [hstep]
        exact winCheck_gameState_won now hp hall
    | cons v rest2 =>
      have hvmem : v ∈ u :: v :: rest2 := List.mem_cons_of_mem u (List.mem_cons_self v rest2)
      have hv := (hiff v).1 hvmem
      have hunotin : u ∉ v :: rest2 := (List.nodup_cons.1 hnd).1
      have hvu : ¬ v = u := by
        intro h
        exact hunotin (h ▸ List.mem_cons_self v rest2)
      have hnall :
          allGuessedB (currentWord { s with guessedLetters := insert u s.guessedLetters })
            (insert u s.guessedLetters) = false := by
        by_contra hcon
        rw [Bool.not_eq_false] at hcon
        have := (allGuessedB_true_iff_chars s (insert u s.guessedLetters)).mp hcon v hv.1
        rcases Finset.mem_insert.1 this with h | h
        · exact hvu h
        · exact hv.2 h
      have hstep2 :
          winCheck { s with guessedLetters := insert u s.guessedLetters } now
            = { s with guessedLetters := insert u s.guessedLetters } :=
        winCheck_noWin now hnall
      have hiff2 : ∀ w, w ∈ v :: rest2 ↔
          (w ∈ wordChars { s with guessedLetters := insert u s.guessedLetters } ∧
            w ∉ insert u s.guessedLetters) := by
        intro w
        constructor
        · intro hw
          have hw' := (hiff w).1 (List.mem_cons_of_mem u hw)
          refine ⟨hw'.1, ?_⟩
          rw [Finset.mem_insert]
          push_neg
          refine ⟨?_, hw'.2⟩
          intro h
          exact hunotin (h ▸ hw)
        · intro hw
          obtain ⟨hw1, hw2⟩ := hw
          rw [Finset.mem_insert] at hw2
          push_neg at hw2
          have := (hiff w).2 ⟨hw1, hw2.2⟩
          rcases List.mem_cons.1 this with h | h
          · exact absurd h hw2.1
          · exact h
      have hnd2 : (v :: rest2).Nodup := (List.nodup_cons.1 hnd).2
      have hne2 : ¬ (v :: rest2) = [] := by simp
      obtain ⟨hpre, hwon⟩ :=
        ih { s with guessedLetters := insert u s.guessedLetters } hp hix hnd2 hne2 hiff2
      constructor
      · intro k hk
        cases k with
        | zero => exact hp
        | succ j =>
          have hj : j < (v :: rest2).length := by
            simp only [List.length_cons] at hk ⊢
            omega
          have heq : guessList s ((u :: v :: rest2).take (j + 1)) now
              = guessList { s with guessedLetters := insert u s.guessedLetters }
                  ((v :: rest2).take j) now := by
            show guessList (handleGuess s (some u) now) ((v :: rest2).take j) now = _
            rw [hstep, hstep2]
          rw [heq]
          exact hpre j hj
      · have heq : guessList s (u :: v :: rest2) now
            = guessList { s with guessedLetters := insert u s.guessedLetters }
                (v :: rest2) now := by
          show guessList (handleGuess s (some u) now) (v :: rest2) now = _
          rw [hstep, hstep2]
        rw [heq]
        exact hwon

/-- C1: for every word of the list and every order of guessing its distinct
letters from a fresh `playing` state, the phase stays `playing` after every
proper prefix of the sequence and becomes `won` exactly at the final guess —
the one after which every character of the uppercased word (each occurrence,
tested by per-character set membership) is in the guessed set. -/
theorem guess_perm_wins (i : Nat) (hi : i < WORDS.length) (perm : List String)
    (hnd : perm.Nodup)
    (h1 : ∀ u ∈ perm, u ∈ lettersOfWord i)
    (h2 : ∀ u ∈ lettersOfWord i, u ∈ perm)
    (s : GameState) (hp : s.gameState = Phase.playing)
    (hix : s.currentWordIndex = i) (hg : s.guessedLetters = ∅) (now : Int) :
    (∀ k, k < perm.length → (guessList s (perm.take k) now).gameState = Phase.playing) ∧
    (guessList s perm now).gameState = Phase.won := by
  subst hix
  have hne : ¬ perm = [] := by
    intro h
    subst h
    obtain ⟨x, hx⟩ := List.exists_mem_of_ne_nil _ (words_nonempty_letters _ hi)
    exact List.not_mem_nil x (h2 x hx)
  have hiff : ∀ u, u ∈ perm ↔ (u ∈ wordChars s ∧ u ∉ s.guessedLetters) := by
    intro u
    rw [hg]
    simp only [Finset.not_mem_empty, not_false_iff, and_true]
    constructor
    · intro h
      exact List.mem_dedup.1 (h1 u h)
    · intro h
      exact h2 u (List.mem_dedup.2 h)
  exact guessList_perm_aux now perm s hp hi hnd hne hiff

theorem guess_perm_wins_witness :
    (guessList ⟨Phase.playing, 2, ∅, some 1, 0, 0⟩ (["K", "I", "D", "U", "M"].take 4) 5).gameState
      = Phase.playing ∧
    (guessList ⟨Phase.playing, 2, ∅, some 1, 0, 0⟩ ["K", "I", "D", "U", "M"] 5).gameState
      = Phase.won :=
  ⟨(guess_perm_wins 2 (by decide) ["K", "I", "D", "U", "M"] (by decide) (by decide) (by decide)
      ⟨Phase.playing, 2, ∅, some 1, 0, 0⟩ rfl rfl rfl 5).1 4 (by decide),
   (guess_perm_wins 2 (by decide) ["K", "I", "D", "U", "M"] (by decide) (by decide) (by decide)
      ⟨Phase.playing, 2, ∅, some 1, 0, 0⟩ rfl rfl rfl 5).2⟩

theorem advance_last_frame_witness :
    advance ⟨Phase.won, 13, {"Z", "A", "K", "T"}, some 1, 0, 1⟩
      = ⟨Phase.start, 13, {"Z", "A", "K", "T"}, some 1, 0, 1⟩ ∧
    allGuessedB (currentWord (advance ⟨Phase.won, 13, {"Z", "A", "K", "T"}, some 1, 0, 1⟩))
      (advance ⟨Phase.won, 13, {"Z", "A", "K", "T"}, some 1, 0, 1⟩).guessedLetters = true :=
  ⟨(advance_last_frame ⟨Phase.won, 13, {"Z", "A", "K", "T"}, some 1, 0, 1⟩ rfl rfl).1,
   (advance_last_frame ⟨Phase.won, 13, {"Z", "A", "K", "T"}, some 1, 0, 1⟩ rfl rfl).2
      (by decide)⟩

theorem handleHint_noUnrevealed {s : GameState} (r : Nat) (now : Int)
    (h : unrevealed s = []) : handleHint s r now = s := by
  have hlen : ¬ 0 < (unrevealed s).length := by simp [h]
  rw [handleHint, dif_neg hlen]

theorem hintChoice_isSome {s : GameState} (r : Nat) (h : ¬ unrevealed s = []) :
    hintChoice s r ≠ none := by
  have hlen : 0 < (unrevealed s).length := List.length_pos.2 h
  rw [hintChoice, List.get?_eq_get (Nat.mod_lt r hlen)]
  simp

theorem handleHint_choice {s : GameState} {r : Nat} {u : String} (now : Int)
    (h : hintChoice s r = some u) :
    u ∈ wordChars s ∧ u ∉ s.guessedLetters ∧
      handleHint s r now = handleGuess s (some u) now := by
  have hlen : 0 < (unrevealed s).length := by
    by_contra hl
    have hnil : unrevealed s = [] := List.eq_nil_of_length_eq_zero (by omega)
    rw [hintChoice, hnil] at h
    simp at h
  have hget : (unrevealed s).get ⟨r % (unrevealed s).length, Nat.mod_lt r hlen⟩ = u := by
    have h2 := List.get?_eq_get (Nat.mod_lt r hlen)
    rw [hintChoice, h2] at h
    exact Option.some_injective _ h
  have hmem : u ∈ unrevealed s := hget ▸ List.get_mem _ _ _
  have hmem2 := List.mem_filter.1 hmem
  refine ⟨hmem2.1, ?_, ?_⟩
  · have h3 := hmem2.2
    simp at h3
    exact h3
  · rw [handleHint, dif_pos hlen, hget]

theorem hintSelCount_eq_count (s : GameState) (u : String) :
    hintSelCount s u = (unrevealed s).count u := by
  rw [hintSelCount]
  have hmap : (List.range (unrevealed s).length).map (hintChoice s)
      = (unrevealed s).map some := by
    apply List.ext_get
    · simp
    · intro n h1 h2
      rw [List.get_map, List.get_map, List.get_range]
      have hn : n < (unrevealed s).length := by simpa using h2
      rw [hintChoice, Nat.mod_eq_of_lt hn, List.get?_eq_get hn]
  rw [hmap, List.count, List.countP_map]
  rfl

/-- C2 counterexample: the hint draw is NOT uniform over the set of missing
word letters.  In the fresh `playing` state on "LEBARAN" the seven draws are
uniform over the seven unrevealed occurrences, so the letter "A" (two
occurrences) is selected by two of the seven equally likely draws while "L" is
selected by one — the members of the missing-letter set are not equally
likely. -/
theorem hint_set_uniform_refuted :
    ¬ specHintUniformOverSet ⟨Phase.playing, 0, ∅, some 1, 0, 0⟩ := by
  unfold specHintUniformOverSet
  decide

/-- C2 (amended): the hint operation is a no-op when every occurrence of the
current word is revealed; otherwise every possible draw selects one of the
unrevealed occurrences of the word — hence a letter that is never already
guessed and never absent from the word — and routes it through the guess
operation; the number of draws selecting a letter equals its number of
unrevealed occurrences (uniform over occurrences, not over the set of missing
letters). -/
theorem hint_occurrence_selection (s : GameState) (r : Nat) (now : Int) :
    (unrevealed s = [] → handleHint s r now = s) ∧
    (¬ unrevealed s = [] → hintChoice s r ≠ none) ∧
    (∀ u, hintChoice s r = some u →
      u ∈ wordChars s ∧ u ∉ s.guessedLetters ∧
      handleHint s r now = handleGuess s (some u) now) ∧
    (∀ u, hintSelCount s u = (unrevealed s).count u) :=
  ⟨fun h => handleHint_noUnrevealed r now h,
   fun h => hintChoice_isSome r h,
   fun _ h => handleHint_choice now h,
   fun u => hintSelCount_eq_count s u⟩

theorem hint_occurrence_selection_witness :
    handleHint ⟨Phase.playing, 2, {"M", "U", "D", "I", "K"}, some 1, 0, 1⟩ 0 0
      = ⟨Phase.playing, 2, {"M", "U", "D", "I", "K"}, some 1, 0, 1⟩ ∧
    ("A" ∈ wordChars ⟨Phase.playing, 0, ∅, some 1, 0, 0⟩ ∧
      "A" ∉ (⟨Phase.playing, 0, ∅, some 1, 0, 0⟩ : GameState).guessedLetters ∧
      handleHint ⟨Phase.playing, 0, ∅, some 1, 0, 0⟩ 3 0
        = handleGuess ⟨Phase.playing, 0, ∅, some 1, 0, 0⟩ (some ("A")) 0) ∧
    hintChoice ⟨Phase.playing, 0, ∅, some 1, 0, 0⟩ 3 ≠ none :=
  ⟨(hint_occurrence_selection ⟨Phase.playing, 2, {"M", "U", "D", "I", "K"}, some 1, 0, 1⟩ 0 0).1
      (by decide),
   (hint_occurrence_selection ⟨Phase.playing, 0, ∅, some 1, 0, 0⟩ 3 0).2.2.1 "A" (by decide),
   (hint_occurrence_selection ⟨Phase.playing, 0, ∅, some 1, 0, 0⟩ 3 0).2.1 (by decide)⟩

end TebakKata
